import Mathlib

/-!
Verification of the aztec-connect client core against its specification.

The definitions below are a shallow embedding of the TypeScript sources:
* `src/sdk/src/join_split_proof/index.ts` (`JoinSplitProofCreator.createProof`,
  `ethSign`),
* `src/blockchain/src/rollup_processor.ts` (`getRollupBlocksFrom`,
  `getDefiBridgeEvents`, `decodeBlock`),
* the persistence contract exercised by
  `src/sdk/src/database/test/test_suite.ts` (the store implementation itself
  is not part of the sources, so it is modelled from the specification).

External collaborators (prover, world state, encryption, keccak, signer,
Ethereum provider) are opaque in the sources and are therefore modelled as
function-valued environment fields.  Machine integers:  TypeScript `bigint`
values are modelled as `Int`, unsigned counters as `Nat`, byte buffers as
`List Nat`.
-/

namespace AztecConnect

/-! ## Join-split proof creator (`join_split_proof/index.ts`) -/

/-- A value note as handed to the prover (`barretenberg` `Note`):
owner public key, viewing-key secret, value. -/
structure Note where
  owner : Nat
  secret : Nat
  value : Int
  deriving DecidableEq, Repr

/-- A note tracked by the user state (index in the commitment tree,
value, viewing-key secret), the shape consumed by `createProof`. -/
structure TrackedNote where
  index : Nat
  value : Int
  viewingKey : Nat
  deriving DecidableEq, Repr

/-- `UserData`: the sender's key material. -/
structure UserData where
  publicKey : Nat
  privateKey : Nat
  deriving DecidableEq, Repr

/-- An external Ethereum-style signer (`ethers.Signer`): an address and a
message-signing function returning signature bytes. -/
structure Signer where
  address : Nat
  signMessage : List Nat → List Nat

/-- The two errors `createProof` can throw. -/
inductive JsError where
  | insufficientFunds
  | signerRequired
  deriving DecidableEq, Repr

/-- The transaction descriptor assembled by `createProof` and handed to the
external prover (`JoinSplitTx`). -/
structure JoinSplitTx where
  publicInput : Int
  publicOutput : Int
  numInputNotes : Nat
  inputNoteIndices : List Nat
  dataRoot : Nat
  inputNotePaths : List Nat
  inputNotes : List Note
  outputNotes : List Note
  signature : Nat
  inputOwner : Nat
  outputOwner : Nat
  accountIndex : Nat
  accountPath : Nat
  signingPubKey : Nat
  deriving DecidableEq, Repr

/-- The opaque external collaborators of `JoinSplitProofCreator`: the world
state (`getHashPath`, `getRoot`), note encryption, the 4-note signing
routine, the prover, the deposit signing-data extractor and keccak. -/
structure JsEnv where
  getHashPath : Nat → Nat
  getRoot : Nat
  encryptNote : Note → List Nat
  sign4Notes : List Note → Nat → Nat
  createJoinSplitProof : JoinSplitTx → List Nat
  getDepositSigningData : List Nat → List (List Nat) → List Nat
  keccak : List Nat → List Nat

/-- Sum of the values of a list of tracked notes
(`notes.reduce((sum, note) => sum + note.value, BigInt(0))`). -/
def noteSum (ns : List TrackedNote) : Int :=
  ns.foldl (fun s n => s + n.value) 0

/-- One selection step: keep whichever candidate has the smaller total
value (the earlier one on a tie). -/
def pickNotesStep (acc : Option (List TrackedNote)) (s : List TrackedNote) :
    Option (List TrackedNote) :=
  match acc with
  | none => some s
  | some t => if noteSum s < noteSum t then some s else some t

/-- Modelled from the spec: the Note Selector (`UserState.pickNotes`) is not
among the sources; §4.3 describes it as a pure function returning at most 2
notes whose combined value reaches the target, preferring minimal overshoot,
and failing when no subset of at most 2 notes reaches the target. -/
def pickNotes (notes : List TrackedNote) (v : Int) : Option (List TrackedNote) :=
  (notes.sublists.filter fun s => s.length ≤ 2 && v ≤ noteSum s).foldl pickNotesStep none

/-- The recovery-byte fix-up at the end of `ethSign`:  a trailing byte
`v <= 1` is replaced by `v + 27`, anything else is left alone. -/
def normalizeSig (sig : List Nat) : List Nat :=
  match sig.getLast? with
  | none => sig
  | some v => if v ≤ 1 then sig.dropLast ++ [v + 27] else sig

/-- `JoinSplitProofCreator.ethSign`: throws when no signer is supplied,
otherwise signs the keccak digest of the public inputs and normalizes the
recovery byte. -/
def ethSign (env : JsEnv) (txPublicInputs : List Nat) (signer : Option Signer) :
    Except JsError (List Nat) :=
  match signer with
  | none => Except.error JsError.signerRequired
  | some s => Except.ok (normalizeSig (s.signMessage (env.keccak txPublicInputs)))

/-- What a successful `createProof` call returns, together with the
transaction descriptor it handed to the prover. -/
structure CreateProofResult where
  tx : JoinSplitTx
  proofData : List Nat
  viewingKeys : List (List Nat)
  depositSignature : Option (List Nat)
  deriving DecidableEq, Repr

/-- `JoinSplitProofCreator.createProof`.  Fresh randomness (dummy-note
viewing secrets, output-note secrets, the fallback random receiver key) is
supplied explicitly: `dummySecrets i` is the secret drawn for the dummy note
padded in at index `i`, `outSecret1`/`outSecret2` the output-note secrets,
`randomOwner` the key used when `receiverPubKey` is absent. -/
def createProof (env : JsEnv) (spendableNotes : List TrackedNote)
    (publicInput publicOutput newNoteValue : Int) (sender : UserData)
    (receiverPubKey : Option Nat) (outputOwnerAddress : Option Nat)
    (signer : Option Signer)
    (dummySecrets : Nat → Nat) (outSecret1 outSecret2 randomOwner : Nat) :
    Except JsError CreateProofResult :=
  let requiredInputNoteValue := max 0 (newNoteValue + publicOutput - publicInput)
  match pickNotes spendableNotes requiredInputNoteValue with
  | none => Except.error JsError.insufficientFunds
  | some notes =>
    let numInputNotes := notes.length
    let totalNoteInputValue := noteSum notes
    let padIndices := (List.range 2).drop notes.length
    let inputNoteIndices := notes.map (fun n => n.index) ++ padIndices
    let inputNotes :=
      notes.map (fun n => Note.mk sender.publicKey n.viewingKey n.value)
        ++ padIndices.map (fun i => Note.mk sender.publicKey (dummySecrets i) 0)
    let inputNotePaths := inputNoteIndices.map env.getHashPath
    let changeValue := max 0 (totalNoteInputValue - newNoteValue - publicOutput)
    let newNoteOwner := receiverPubKey.getD randomOwner
    let outputNote0 := Note.mk newNoteOwner outSecret1 newNoteValue
    let outputNote1 := Note.mk sender.publicKey outSecret2 changeValue
    let outputNotes := [outputNote0, outputNote1]
    let encViewingKey1 := env.encryptNote outputNote0
    let encViewingKey2 := env.encryptNote outputNote1
    let signature := env.sign4Notes (inputNotes ++ outputNotes) sender.privateKey
    let tx : JoinSplitTx :=
      { publicInput := publicInput
        publicOutput := publicOutput
        numInputNotes := numInputNotes
        inputNoteIndices := inputNoteIndices
        dataRoot := env.getRoot
        inputNotePaths := inputNotePaths
        inputNotes := inputNotes
        outputNotes := outputNotes
        signature := signature
        inputOwner := (signer.map (fun s => s.address)).getD 0
        outputOwner := outputOwnerAddress.getD 0
        accountIndex := 0
        accountPath := env.getHashPath 0
        signingPubKey := sender.publicKey }
    let proofData := env.createJoinSplitProof tx
    let viewingKeys := [encViewingKey1, encViewingKey2]
    if publicInput ≠ 0 then
      match ethSign env (env.getDepositSigningData proofData viewingKeys) signer with
      | Except.error e => Except.error e
      | Except.ok sig =>
        Except.ok
          { tx := tx
            proofData := proofData
            viewingKeys := viewingKeys
            depositSignature := some sig }
    else
      Except.ok
        { tx := tx
          proofData := proofData
          viewingKeys := viewingKeys
          depositSignature := none }

/-! ## Chain decoder (`rollup_processor.ts`) -/

/-- A `DefiBridgeProcessed` event log entry together with the chain block it
occurred in. -/
structure DefiEvent where
  blockNumber : Nat
  bridgeId : Nat
  nonce : Nat
  totalInputValue : Int
  totalOutputValueA : Int
  totalOutputValueB : Int
  result : Bool
  deriving DecidableEq, Repr

/-- The `DefiInteractionNote` built from a parsed `DefiBridgeProcessed`
log. -/
structure DefiInteractionNote where
  bridgeId : Nat
  nonce : Nat
  totalInputValue : Int
  totalOutputValueA : Int
  totalOutputValueB : Int
  result : Bool
  deriving DecidableEq, Repr

/-- The call data of a rollup transaction.  The sources parse it through the
contract ABI into the `proofData` and `viewingKeys` arguments of
`processRollup`; the ABI round trip is external, so the two arguments are
modelled directly. -/
structure CallData where
  proofData : List Nat
  viewingKeys : List Nat
  deriving DecidableEq, Repr

/-- An Ethereum transaction as returned by `event.getTransaction()`. -/
structure ChainTx where
  hash : Nat
  blockNumber : Nat
  confirmations : Nat
  data : CallData
  gasPrice : Int
  deriving DecidableEq, Repr

/-- A transaction receipt (only `gasUsed` is read). -/
structure Receipt where
  gasUsed : Nat
  deriving DecidableEq, Repr

/-- An Ethereum block (only `timestamp` is read). -/
structure EthBlock where
  timestamp : Nat
  deriving DecidableEq, Repr

/-- A `RollupProcessed` event log entry. -/
structure RollupEvent where
  rollupId : Nat
  blockNumber : Nat
  deriving DecidableEq, Repr

/-- The external Ethereum provider and contract state visible to
`RollupProcessor`: the event logs (in on-chain order) and the lookup
functions backing `getTransaction` / `getTransactionReceipt` / `getBlock`,
plus the opaque `RollupProofData` header readers. -/
structure Chain where
  rollupEvents : List RollupEvent
  defiEvents : List DefiEvent
  getTransaction : RollupEvent → ChainTx
  getTransactionReceipt : Nat → Receipt
  getBlock : Nat → EthBlock
  getRollupIdFromBuffer : List Nat → Nat
  getRollupSizeFromBuffer : List Nat → Nat

/-- A decoded `Block` record. -/
structure Block where
  created : Nat
  txHash : Nat
  rollupProofData : List Nat
  viewingKeysData : List Nat
  interactionResult : List DefiInteractionNote
  rollupId : Nat
  rollupSize : Nat
  gasPrice : Int
  gasUsed : Nat
  deriving DecidableEq, Repr

/-- `RollupProcessor.getDefiBridgeEvents`: the map from block number to the
`DefiInteractionNote`s parsed from the `DefiBridgeProcessed` logs at or
after `fromBlock`, in log order. -/
def getDefiBridgeEvents (chain : Chain) (fromBlock : Nat) : Nat → List DefiInteractionNote :=
  fun blockNumber =>
    ((chain.defiEvents.filter fun e => fromBlock ≤ e.blockNumber).filter
        fun e => e.blockNumber == blockNumber).map
      fun e =>
        { bridgeId := e.bridgeId
          nonce := e.nonce
          totalInputValue := e.totalInputValue
          totalOutputValueA := e.totalOutputValueA
          totalOutputValueB := e.totalOutputValueB
          result := e.result }

/-- `RollupProcessor.decodeBlock`: rebuild a `Block` from a transaction
(whose `timestamp` field has been spliced in from its chain block), a
receipt and the interaction results of its block.  `created` is the
millisecond timestamp `new Date(tx.timestamp * 1000)` wraps. -/
def decodeBlock (chain : Chain) (tx : ChainTx) (timestamp : Nat) (receipt : Receipt)
    (interactionResult : List DefiInteractionNote) : Block :=
  { created := timestamp * 1000
    txHash := tx.hash
    rollupProofData := tx.data.proofData
    viewingKeysData := tx.data.viewingKeys
    interactionResult := interactionResult
    rollupId := chain.getRollupIdFromBuffer tx.data.proofData
    rollupSize := chain.getRollupSizeFromBuffer tx.data.proofData
    gasPrice := tx.gasPrice
    gasUsed := receipt.gasUsed }

/-- `RollupProcessor.getRollupBlocksFrom`.  Note:  the source computes
`receipts` as a map over all surviving transactions but then indexes
`receipts[0]` for every decoded block; the embedding mirrors that via
`receipts.headD`. -/
def getRollupBlocksFrom (chain : Chain) (rollupId minConfirmations : Nat) : List Block :=
  match (chain.rollupEvents.filter fun e => e.rollupId == rollupId).head? with
  | none => []
  | some rollupEvent =>
    let rollupEvents := chain.rollupEvents.filter fun e => rollupEvent.blockNumber ≤ e.blockNumber
    if rollupEvents.length == 0 then []
    else
      let txs := (rollupEvents.map chain.getTransaction).filter
        fun tx => minConfirmations ≤ tx.confirmations
      let receipts := txs.map fun tx => chain.getTransactionReceipt tx.hash
      let interactionResultMap := getDefiBridgeEvents chain rollupEvent.blockNumber
      txs.map fun tx =>
        decodeBlock chain tx (chain.getBlock tx.blockNumber).timestamp
          (receipts.headD { gasUsed := 0 }) (interactionResultMap tx.blockNumber)

/-! ## Persistence facade

The `Database` implementation behind `database/database.ts` is not among the
sources; only its behavioural contract is, in the specification (§3, §4.1,
§4.2, §4.6, §7) and in `database/test/test_suite.ts`.  Every operation below
is therefore modelled from the spec, faithful to the behaviour the test
suite asserts. -/

/-- A stored value note. -/
structure DbNote where
  index : Nat
  owner : Nat
  value : Int
  viewingKey : Nat
  nullifier : Nat
  nullified : Bool
  deriving DecidableEq, Repr

/-- A stored user identity record. -/
structure DbUser where
  id : Nat
  publicKey : Nat
  privateKey : Nat
  syncedToRollup : Int
  deriving DecidableEq, Repr

/-- A stored transaction-history row (`UserTxDao`), keyed by the
`(txHash, userId)` pair. -/
structure DbUserTx where
  txHash : Nat
  userId : Nat
  action : Nat
  assetId : Nat
  value : Int
  settled : Bool
  created : Nat
  recipient : Option Nat
  deriving DecidableEq, Repr

/-- A stored signing key. -/
structure DbSigningKey where
  accountId : Nat
  key : Nat
  treeIndex : Nat
  deriving DecidableEq, Repr

/-- A stored alias generation. -/
structure DbAlias where
  aliasHash : Nat
  address : Nat
  latestNonce : Nat
  deriving DecidableEq, Repr

/-- The whole store: one logical table per entity plus the key-value blob
store. -/
structure Database where
  notes : List DbNote
  users : List DbUser
  userTxs : List DbUserTx
  signingKeys : List DbSigningKey
  aliases : List DbAlias
  kvStore : List (Nat × List Nat)
  deriving DecidableEq, Repr

namespace Database

/-- Modelled from the spec: `addNote` inserts a note; notes are keyed by
their tree index (unique, assigned externally), so an insert at an existing
index replaces the row. -/
def addNote (db : Database) (n : DbNote) : Database :=
  { db with notes := (db.notes.filter fun m => m.index != n.index) ++ [n] }

/-- Modelled from the spec: `getNote(index)` returns the note at the index,
or nothing if absent. -/
def getNote (db : Database) (index : Nat) : Option DbNote :=
  db.notes.find? fun n => n.index == index

/-- Modelled from the spec: `getNoteByNullifier` returns the note carrying
the nullifier, or nothing if absent. -/
def getNoteByNullifier (db : Database) (nullifier : Nat) : Option DbNote :=
  db.notes.find? fun n => n.nullifier == nullifier

/-- Modelled from the spec: `nullifyNote(index)` flips `nullified` on the
note at the index; a missing index is a no-op. -/
def nullifyNote (db : Database) (index : Nat) : Database :=
  { db with
    notes := db.notes.map fun n => if n.index == index then { n with nullified := true } else n }

/-- Modelled from the spec: `getUserNotes(ownerId)` returns the owner's
non-nullified notes ordered by index ascending. -/
def getUserNotes (db : Database) (ownerId : Nat) : List DbNote :=
  List.insertionSort (fun a b => a.index ≤ b.index)
    (db.notes.filter fun n => n.owner == ownerId && !n.nullified)

/-- Modelled from the spec: `addUser` inserts a user record, keyed by id. -/
def addUser (db : Database) (u : DbUser) : Database :=
  { db with users := (db.users.filter fun v => v.id != u.id) ++ [u] }

/-- Modelled from the spec: `getUser(id)` returns the user record, or
nothing if absent. -/
def getUser (db : Database) (id : Nat) : Option DbUser :=
  db.users.find? fun u => u.id == id

/-- Modelled from the spec: `updateUser` replaces the record of an existing
user in place; updating a nonexistent user is a no-op. -/
def updateUser (db : Database) (u : DbUser) : Database :=
  { db with users := db.users.map fun v => if v.id == u.id then u else v }

/-- Modelled from the spec: `addUserTx` inserts a transaction-history row;
a row whose `(txHash, userId)` pair already exists is overwritten in place
(last write wins), never an error. -/
def addUserTx (db : Database) (t : DbUserTx) : Database :=
  { db with
    userTxs := (db.userTxs.filter fun s => !(s.txHash == t.txHash && s.userId == t.userId)) ++ [t] }

/-- Modelled from the spec: `getUserTx(userId, txHash)` returns the row
matching both keys, or nothing. -/
def getUserTx (db : Database) (userId txHash : Nat) : Option DbUserTx :=
  db.userTxs.find? fun t => t.txHash == txHash && t.userId == userId

/-- Modelled from the spec: `settleUserTx(userId, txHash)` sets `settled` on
exactly the row matching both keys. -/
def settleUserTx (db : Database) (userId txHash : Nat) : Database :=
  { db with
    userTxs := db.userTxs.map fun t =>
      if t.txHash == txHash && t.userId == userId then { t with settled := true } else t }

/-- Modelled from the spec: `getUserTxs(userId)` returns the user's rows
ordered by created timestamp descending (newest first, as the test suite
asserts). -/
def getUserTxs (db : Database) (userId : Nat) : List DbUserTx :=
  List.insertionSort (fun a b => b.created ≤ a.created)
    (db.userTxs.filter fun t => t.userId == userId)

/-- Modelled from the spec: `addUserSigningKey` inserts a signing key row;
multiple keys may belong to one account id. -/
def addUserSigningKey (db : Database) (k : DbSigningKey) : Database :=
  { db with signingKeys := db.signingKeys ++ [k] }

/-- Modelled from the spec: `getUserSigningKeys(accountId)` returns all of
the account's signing keys. -/
def getUserSigningKeys (db : Database) (accountId : Nat) : List DbSigningKey :=
  db.signingKeys.filter fun k => k.accountId == accountId

/-- Modelled from the spec: `removeUserSigningKeys(accountId)` removes the
account's signing keys as a batch. -/
def removeUserSigningKeys (db : Database) (accountId : Nat) : Database :=
  { db with signingKeys := db.signingKeys.filter fun k => k.accountId != accountId }

/-- Modelled from the spec: `addAlias` inserts an alias generation, keyed by
the `(aliasHash, address)` pair (an existing pair is replaced in place). -/
def addAlias (db : Database) (a : DbAlias) : Database :=
  { db with
    aliases := (db.aliases.filter fun b => !(b.aliasHash == a.aliasHash && b.address == a.address)) ++ [a] }

/-- Modelled from the spec: `getAlias(aliasHash, address)` returns the exact
generation, or nothing. -/
def getAlias (db : Database) (aliasHash address : Nat) : Option DbAlias :=
  db.aliases.find? fun a => a.aliasHash == aliasHash && a.address == address

/-- Modelled from the spec: `getAliases(aliasHash)` returns all generations
for the hash. -/
def getAliases (db : Database) (aliasHash : Nat) : List DbAlias :=
  db.aliases.filter fun a => a.aliasHash == aliasHash

/-- One step of the latest-generation scan: keep whichever generation has
the greater `latestNonce` (the earlier one on a tie). -/
def pickLatestStep (acc : Option DbAlias) (a : DbAlias) : Option DbAlias :=
  match acc with
  | none => some a
  | some b => if b.latestNonce < a.latestNonce then some a else some b

/-- Among a list of alias generations, the one with the greatest
`latestNonce` (the first such in case of a tie), or nothing when empty. -/
def pickLatest (l : List DbAlias) : Option DbAlias :=
  l.foldl pickLatestStep none

/-- One step of the earliest-generation scan: keep whichever generation has
the smaller `latestNonce` (the earlier one on a tie). -/
def pickEarliestStep (acc : Option DbAlias) (a : DbAlias) : Option DbAlias :=
  match acc with
  | none => some a
  | some b => if a.latestNonce < b.latestNonce then some a else some b

/-- Among a list of alias generations, the one with the smallest
`latestNonce` (the first such in case of a tie), or nothing when empty. -/
def pickEarliest (l : List DbAlias) : Option DbAlias :=
  l.foldl pickEarliestStep none

/-- Modelled from the spec: `getLatestNonceByAddress(address)` returns the
greatest `latestNonce` among the address's generations. -/
def getLatestNonceByAddress (db : Database) (address : Nat) : WithBot Nat :=
  ((db.aliases.filter fun a => a.address == address).map fun a => a.latestNonce).maximum

/-- Modelled from the spec: `getLatestNonceByAliasHash(aliasHash)` returns
the greatest `latestNonce` among the hash's generations. -/
def getLatestNonceByAliasHash (db : Database) (aliasHash : Nat) : WithBot Nat :=
  ((db.aliases.filter fun a => a.aliasHash == aliasHash).map fun a => a.latestNonce).maximum

/-- The generation a nonce query selects from a list of matching
generations:  with a nonce given, the one with the smallest `latestNonce`
at least that nonce; with the nonce omitted, the one with the greatest
`latestNonce`.  This is the behaviour the repository's own test suite pins
(`test_suite.ts:355-389`: nonce 5 → the nonce-6 generation, nonce 7 → the
nonce-8 generation, no nonce → the nonce-10 generation). -/
def selectGeneration (nonce : Option Nat) (l : List DbAlias) : Option DbAlias :=
  match nonce with
  | none => pickLatest l
  | some n => pickEarliest (l.filter fun a => n ≤ a.latestNonce)

/-- Modelled from the spec: `getAliasHashByAddress(address, nonce?)`, with
the nonce semantics pinned by the test suite (`test_suite.ts:355-371`). -/
def getAliasHashByAddress (db : Database) (address : Nat) (nonce : Option Nat) : Option Nat :=
  (selectGeneration nonce (db.aliases.filter fun a => a.address == address)).map
    fun a => a.aliasHash

/-- Modelled from the spec: `getAddressByAliasHash(aliasHash, nonce?)`, with
the nonce semantics pinned by the test suite (`test_suite.ts:373-389`). -/
def getAddressByAliasHash (db : Database) (aliasHash : Nat) (nonce : Option Nat) : Option Nat :=
  (selectGeneration nonce (db.aliases.filter fun a => a.aliasHash == aliasHash)).map
    fun a => a.address

/-- Modelled from the spec: `addKey(name, value)` stores a blob under a
name (replacing an existing entry). -/
def addKey (db : Database) (name : Nat) (value : List Nat) : Database :=
  { db with kvStore := (db.kvStore.filter fun e => e.1 != name) ++ [(name, value)] }

/-- Modelled from the spec: `getKey(name)` returns the stored blob, or
nothing. -/
def getKey (db : Database) (name : Nat) : Option (List Nat) :=
  (db.kvStore.find? fun e => e.1 == name).map fun e => e.2

/-- Modelled from the spec: `deleteKey(name)` removes the entry. -/
def deleteKey (db : Database) (name : Nat) : Database :=
  { db with kvStore := db.kvStore.filter fun e => e.1 != name }

/-- Modelled from the spec: `resetUsers()` clears all aliases, all notes,
all signing keys and all transaction history, and resets every user's
`syncedToRollup` to -1, preserving user identity records and the key-value
blob store. -/
def resetUsers (db : Database) : Database :=
  { db with
    aliases := []
    notes := []
    signingKeys := []
    userTxs := []
    users := db.users.map fun u => { u with syncedToRollup := -1 } }

end Database

/-! ## Concrete fixtures used to instantiate the theorems -/

/-- The test suite's alias-nonce scenario: one address (50) carrying three
alias generations — hash 41 at nonce 10, hash 42 at nonce 8, hash 43 at
nonce 6. -/
def dbAliasEx : Database :=
  { notes := []
    users := []
    userTxs := []
    signingKeys := []
    aliases := [⟨41, 50, 10⟩, ⟨42, 50, 8⟩, ⟨43, 50, 6⟩]
    kvStore := [] }

/-- A trivial environment for the proof creator: every external collaborator
returns an inert value. -/
def envEx : JsEnv :=
  { getHashPath := fun _ => 0
    getRoot := 0
    encryptNote := fun _ => []
    sign4Notes := fun _ _ => 0
    createJoinSplitProof := fun _ => []
    getDepositSigningData := fun _ _ => []
    keccak := fun d => d }

/-- A signer whose signatures end in the non-standard recovery byte 0. -/
def signerEx : Signer :=
  { address := 7
    signMessage := fun _ => [1, 2, 0] }

/-- A chain with two confirmed rollup transactions whose receipts burn
different amounts of gas (100 for transaction 10, 200 for transaction
11). -/
def chainEx : Chain :=
  { rollupEvents := [⟨5, 1000⟩, ⟨6, 1001⟩]
    defiEvents := []
    getTransaction := fun e =>
      if e.rollupId == 5 then ⟨10, 1000, 9, ⟨[1], [2]⟩, 3⟩ else ⟨11, 1001, 9, ⟨[4], [5]⟩, 6⟩
    getTransactionReceipt := fun h => if h == 10 then ⟨100⟩ else ⟨200⟩
    getBlock := fun _ => ⟨0⟩
    getRollupIdFromBuffer := fun _ => 0
    getRollupSizeFromBuffer := fun _ => 0 }

/-- The result record produced by `createProof` on the single-note fixture
(one note of value 100, no public input or output, transfer of 30). -/
def resEx : CreateProofResult :=
  { tx :=
      { publicInput := 0
        publicOutput := 0
        numInputNotes := 1
        inputNoteIndices := [0, 1]
        dataRoot := 0
        inputNotePaths := [0, 0]
        inputNotes := [⟨8, 9, 100⟩, ⟨8, 0, 0⟩]
        outputNotes := [⟨3, 1, 30⟩, ⟨8, 2, 70⟩]
        signature := 0
        inputOwner := 0
        outputOwner := 0
        accountIndex := 0
        accountPath := 0
        signingPubKey := 8 }
    proofData := []
    viewingKeys := [[], []]
    depositSignature := none }

/-- The spec's Chain Decoder scenario: rollup id 5 processed at block 1000,
but its transaction has only 1 confirmation. -/
def chainExLow : Chain :=
  { rollupEvents := [⟨5, 1000⟩]
    defiEvents := []
    getTransaction := fun _ => ⟨10, 1000, 1, ⟨[1], [2]⟩, 3⟩
    getTransactionReceipt := fun _ => ⟨100⟩
    getBlock := fun _ => ⟨0⟩
    getRollupIdFromBuffer := fun _ => 0
    getRollupSizeFromBuffer := fun _ => 0 }

/-! ## Theorems -/

instance : IsTotal DbNote fun a b => a.index ≤ b.index :=
  ⟨fun a b => Nat.le_total a.index b.index⟩

instance : IsTrans DbNote fun a b => a.index ≤ b.index :=
  ⟨fun _ _ _ hab hbc => Nat.le_trans hab hbc⟩

/-- A small concrete store used to instantiate the database theorems.
User 1 owns notes 3 and 5 (live) and note 7 (nullified); user 2 owns note
4. -/
def dbEx : Database :=
  { notes :=
      [⟨5, 1, 100, 11, 21, false⟩, ⟨3, 1, 50, 12, 22, false⟩,
        ⟨4, 2, 7, 13, 23, false⟩, ⟨7, 1, 9, 14, 24, true⟩]
    users := [⟨1, 101, 201, 5⟩, ⟨2, 102, 202, 0⟩]
    userTxs := [⟨90, 1, 0, 0, 10, false, 1000, none⟩, ⟨90, 2, 0, 0, 10, false, 1000, none⟩]
    signingKeys := [⟨1, 301, 0⟩]
    aliases := [⟨40, 50, 0⟩, ⟨40, 51, 1⟩, ⟨40, 52, 2⟩]
    kvStore := [(60, [1, 2, 3])] }

/-- C6:  for every owner id and stored set of notes, `getUserNotes ownerId`
returns exactly the owner's notes with `nullified = false` — nullified
notes and other users' notes never appear — ordered ascending by index. -/
theorem getUserNotes_spec (db : Database) (ownerId : Nat) :
    (∀ n ∈ db.getUserNotes ownerId, n.owner = ownerId ∧ n.nullified = false ∧ n ∈ db.notes) ∧
    (∀ n ∈ db.notes, n.owner = ownerId → n.nullified = false → n ∈ db.getUserNotes ownerId) ∧
    List.Sorted (fun a b : DbNote => a.index ≤ b.index) (db.getUserNotes ownerId) := by
  have hperm := List.perm_insertionSort (fun a b : DbNote => a.index ≤ b.index)
    (db.notes.filter fun n => n.owner == ownerId && !n.nullified)
  refine ⟨?_, ?_, List.sorted_insertionSort _ _⟩
  · intro n hn
    rw [Database.getUserNotes] at hn
    have hmem := List.mem_filter.mp (hperm.mem_iff.mp hn)
    have hp := hmem.2
    simp only [Bool.and_eq_true, beq_iff_eq, Bool.not_eq_true'] at hp
    exact ⟨hp.1, hp.2, hmem.1⟩
  · intro n hn ho hnu
    rw [Database.getUserNotes]
    refine hperm.mem_iff.mpr (List.mem_filter.mpr ⟨hn, ?_⟩)
    simp only [Bool.and_eq_true, beq_iff_eq, Bool.not_eq_true']
    exact ⟨ho, hnu⟩

/-- Witness for C6 at the concrete store `dbEx`. -/
theorem getUserNotes_spec_witness :
    DbNote.owner ⟨3, 1, 50, 12, 22, false⟩ = 1 ∧
      DbNote.nullified ⟨3, 1, 50, 12, 22, false⟩ = false ∧
      (⟨3, 1, 50, 12, 22, false⟩ : DbNote) ∈ dbEx.notes :=
  (getUserNotes_spec dbEx 1).1 ⟨3, 1, 50, 12, 22, false⟩ (by decide)

/-- C7:  after `resetUsers`, aliases, notes, signing keys and transaction
history are all empty, every stored user's `syncedToRollup` is -1, and the
user identity records (all fields but `syncedToRollup`) and the key-value
blob store are unchanged. -/
theorem resetUsers_spec (db : Database) :
    db.resetUsers.aliases = [] ∧ db.resetUsers.notes = [] ∧
    db.resetUsers.signingKeys = [] ∧ db.resetUsers.userTxs = [] ∧
    db.resetUsers.kvStore = db.kvStore ∧
    db.resetUsers.users = (db.users.map fun u => { u with syncedToRollup := -1 }) ∧
    (∀ u ∈ db.resetUsers.users, u.syncedToRollup = -1) := by
  refine ⟨rfl, rfl, rfl, rfl, rfl, rfl, ?_⟩
  intro u hu
  simp only [Database.resetUsers, List.mem_map] at hu
  obtain ⟨v, -, rfl⟩ := hu
  rfl

/-- Witness for C7 at the concrete store `dbEx`. -/
theorem resetUsers_spec_witness : DbUser.syncedToRollup ⟨1, 101, 201, -1⟩ = -1 :=
  (resetUsers_spec dbEx).2.2.2.2.2.2 ⟨1, 101, 201, -1⟩ (by decide)

/-- Scanning the settled rows for the settled key finds exactly the old row
with its `settled` flag raised. -/
theorem find?_settle (l : List DbUserTx) (uid txh : Nat) :
    (l.map fun t =>
        if t.txHash == txh && t.userId == uid then { t with settled := true } else t).find?
        (fun t => t.txHash == txh && t.userId == uid)
      = (l.find? fun t => t.txHash == txh && t.userId == uid).map
          fun r => { r with settled := true } := by
  rw [List.find?_map]
  have hpg : ((fun t : DbUserTx => t.txHash == txh && t.userId == uid) ∘ fun t =>
      if t.txHash == txh && t.userId == uid then { t with settled := true } else t)
      = fun t : DbUserTx => t.txHash == txh && t.userId == uid := by
    funext t
    by_cases ht : (t.txHash == txh && t.userId == uid) = true
    · simp only [Function.comp_apply, if_pos ht]
    · simp only [Function.comp_apply, if_neg ht]
  rw [hpg]
  cases hfind : l.find? fun t => t.txHash == txh && t.userId == uid with
  | none => rfl
  | some r =>
    have hr := List.find?_some hfind
    simp only [Option.map_some']
    rw [if_pos hr]

/-- Settling one user's row leaves any other user's row for the same hash
untouched. -/
theorem find?_settle_frame (l : List DbUserTx) (uid uid2 txh : Nat) (hne : uid2 ≠ uid) :
    (l.map fun t =>
        if t.txHash == txh && t.userId == uid then { t with settled := true } else t).find?
        (fun t => t.txHash == txh && t.userId == uid2)
      = l.find? fun t => t.txHash == txh && t.userId == uid2 := by
  rw [List.find?_map]
  have hpg : ((fun t : DbUserTx => t.txHash == txh && t.userId == uid2) ∘ fun t =>
      if t.txHash == txh && t.userId == uid then { t with settled := true } else t)
      = fun t : DbUserTx => t.txHash == txh && t.userId == uid2 := by
    funext t
    by_cases ht : (t.txHash == txh && t.userId == uid) = true
    · simp only [Function.comp_apply, if_pos ht]
    · simp only [Function.comp_apply, if_neg ht]
  rw [hpg]
  cases hfind : l.find? fun t => t.txHash == txh && t.userId == uid2 with
  | none => rfl
  | some r =>
    have hr := List.find?_some hfind
    have hfalse : (r.txHash == txh && r.userId == uid) = false := by
      have hu2 : r.userId = uid2 := by
        simp only [Bool.and_eq_true, beq_iff_eq] at hr
        exact hr.2
      rw [hu2]
      cases h : r.txHash == txh
      · rfl
      · simp [beq_eq_false_iff_ne.mpr hne]
    simp only [Option.map_some']
    rw [if_neg (by simp [hfalse])]

/-- C8:  transaction-history rows are keyed by `(txHash, userId)`:  adding a
row whose pair already exists overwrites the stored row in place, and
`settleUserTx` raises `settled` on exactly the row matching both keys,
leaving other users' rows for the same hash unchanged. -/
theorem userTx_key_spec (db : Database) (t t' : DbUserTx) (uid uid2 txh : Nat)
    (hh : t'.txHash = t.txHash) (hu : t'.userId = t.userId) (hne : uid2 ≠ uid) :
    ((db.addUserTx t).addUserTx t').getUserTx t.userId t.txHash = some t' ∧
    (db.settleUserTx uid txh).getUserTx uid txh
      = ((db.getUserTx uid txh).map fun r => { r with settled := true }) ∧
    (db.settleUserTx uid txh).getUserTx uid2 txh = db.getUserTx uid2 txh := by
  refine ⟨?_, find?_settle db.userTxs uid txh, find?_settle_frame db.userTxs uid uid2 txh hne⟩
  show (((db.addUserTx t).userTxs.filter
          fun s => !(s.txHash == t'.txHash && s.userId == t'.userId)) ++ [t']).find?
      (fun s => s.txHash == t.txHash && s.userId == t.userId) = some t'
  rw [← hh, ← hu, List.find?_append]
  have h1 : ((db.addUserTx t).userTxs.filter
      fun s => !(s.txHash == t'.txHash && s.userId == t'.userId)).find?
      (fun s => s.txHash == t'.txHash && s.userId == t'.userId) = none := by
    rw [List.find?_eq_none]
    intro x hx
    have h2 := (List.mem_filter.mp hx).2
    simp only [Bool.not_eq_true'] at h2
    simp [h2]
  rw [h1]
  simp

/-- Witness for C8: overwriting and settling at concrete rows of `dbEx`. -/
theorem userTx_key_spec_witness :
    ((dbEx.addUserTx ⟨90, 1, 0, 0, 10, false, 1000, none⟩).addUserTx
        ⟨90, 1, 1, 0, 20, false, 1001, none⟩).getUserTx 1 90
      = some ⟨90, 1, 1, 0, 20, false, 1001, none⟩ ∧
    (dbEx.settleUserTx 1 90).getUserTx 1 90
      = ((dbEx.getUserTx 1 90).map fun r => { r with settled := true }) ∧
    (dbEx.settleUserTx 1 90).getUserTx 2 90 = dbEx.getUserTx 2 90 :=
  userTx_key_spec dbEx ⟨90, 1, 0, 0, 10, false, 1000, none⟩
    ⟨90, 1, 1, 0, 20, false, 1001, none⟩ 1 2 90 rfl rfl (by decide)

instance : IsTotal DbUserTx fun a b => b.created ≤ a.created :=
  ⟨fun a b => Nat.le_total b.created a.created⟩

instance : IsTrans DbUserTx fun a b => b.created ≤ a.created :=
  ⟨fun _ _ _ hab hbc => Nat.le_trans hbc hab⟩

/-- C10:  `getUserTxs userId` returns exactly the user's transaction-history
rows, ordered by created timestamp descending (newest first). -/
theorem getUserTxs_spec (db : Database) (userId : Nat) :
    (∀ t ∈ db.getUserTxs userId, t.userId = userId ∧ t ∈ db.userTxs) ∧
    (∀ t ∈ db.userTxs, t.userId = userId → t ∈ db.getUserTxs userId) ∧
    List.Sorted (fun a b : DbUserTx => b.created ≤ a.created) (db.getUserTxs userId) := by
  have hperm := List.perm_insertionSort (fun a b : DbUserTx => b.created ≤ a.created)
    (db.userTxs.filter fun t => t.userId == userId)
  refine ⟨?_, ?_, List.sorted_insertionSort _ _⟩
  · intro t ht
    rw [Database.getUserTxs] at ht
    have hmem := List.mem_filter.mp (hperm.mem_iff.mp ht)
    have hp := hmem.2
    simp only [beq_iff_eq] at hp
    exact ⟨hp, hmem.1⟩
  · intro t ht hu
    rw [Database.getUserTxs]
    refine hperm.mem_iff.mpr (List.mem_filter.mpr ⟨ht, ?_⟩)
    simp only [beq_iff_eq]
    exact hu

/-- Witness for C10 at the concrete store `dbEx`. -/
theorem getUserTxs_spec_witness :
    DbUserTx.userId ⟨90, 1, 0, 0, 10, false, 1000, none⟩ = 1 ∧
      (⟨90, 1, 0, 0, 10, false, 1000, none⟩ : DbUserTx) ∈ dbEx.userTxs :=
  (getUserTxs_spec dbEx 1).1 ⟨90, 1, 0, 0, 10, false, 1000, none⟩ (by decide)

/-- The latest-generation scan started at `some b` ends at `b` or at a
member of the scanned list, and its result's nonce dominates both `b`'s and
every scanned nonce. -/
theorem foldl_pickLatestStep (l : List DbAlias) (b : DbAlias) :
    ∃ a, l.foldl Database.pickLatestStep (some b) = some a ∧ (a = b ∨ a ∈ l) ∧
      b.latestNonce ≤ a.latestNonce ∧ ∀ c ∈ l, c.latestNonce ≤ a.latestNonce := by
  induction l generalizing b with
  | nil => exact ⟨b, rfl, Or.inl rfl, le_refl _, by simp⟩
  | cons x xs ih =>
    rw [List.foldl_cons]
    by_cases hx : b.latestNonce < x.latestNonce
    · rw [show Database.pickLatestStep (some b) x = some x from if_pos hx]
      obtain ⟨a, ha, hm, hge, hall⟩ := ih x
      refine ⟨a, ha, ?_, le_trans (le_of_lt hx) hge, ?_⟩
      · rcases hm with rfl | hm
        · exact Or.inr (List.mem_cons_self _ _)
        · exact Or.inr (List.mem_cons_of_mem _ hm)
      · intro c hc
        rcases List.mem_cons.mp hc with rfl | hc'
        · exact hge
        · exact hall c hc'
    · rw [show Database.pickLatestStep (some b) x = some b from if_neg hx]
      obtain ⟨a, ha, hm, hge, hall⟩ := ih b
      refine ⟨a, ha, ?_, hge, ?_⟩
      · rcases hm with rfl | hm
        · exact Or.inl rfl
        · exact Or.inr (List.mem_cons_of_mem _ hm)
      · intro c hc
        rcases List.mem_cons.mp hc with rfl | hc'
        · exact le_trans (Nat.le_of_not_lt hx) hge
        · exact hall c hc'

/-- `pickLatest` returns a member whose nonce dominates the whole list. -/
theorem pickLatest_some (l : List DbAlias) (a : DbAlias) (h : Database.pickLatest l = some a) :
    a ∈ l ∧ ∀ b ∈ l, b.latestNonce ≤ a.latestNonce := by
  cases l with
  | nil => cases h
  | cons x xs =>
    rw [Database.pickLatest, List.foldl_cons,
      show Database.pickLatestStep none x = some x from rfl] at h
    obtain ⟨a', ha', hm, hge, hall⟩ := foldl_pickLatestStep xs x
    rw [ha'] at h
    obtain rfl : a' = a := by injection h
    constructor
    · rcases hm with rfl | hm
      · exact List.mem_cons_self _ _
      · exact List.mem_cons_of_mem _ hm
    · intro b hb
      rcases List.mem_cons.mp hb with rfl | hb'
      · exact hge
      · exact hall b hb'

/-- `pickLatest` succeeds on any non-empty list. -/
theorem pickLatest_isSome (l : List DbAlias) (h : l ≠ []) :
    (Database.pickLatest l).isSome = true := by
  cases l with
  | nil => exact absurd rfl h
  | cons x xs =>
    rw [Database.pickLatest, List.foldl_cons,
      show Database.pickLatestStep none x = some x from rfl]
    obtain ⟨a, ha, -, -, -⟩ := foldl_pickLatestStep xs x
    rw [ha]
    rfl

/-- The earliest-generation scan started at `some b` ends at `b` or at a
member of the scanned list, and its result's nonce is below both `b`'s and
every scanned nonce. -/
theorem foldl_pickEarliestStep (l : List DbAlias) (b : DbAlias) :
    ∃ a, l.foldl Database.pickEarliestStep (some b) = some a ∧ (a = b ∨ a ∈ l) ∧
      a.latestNonce ≤ b.latestNonce ∧ ∀ c ∈ l, a.latestNonce ≤ c.latestNonce := by
  induction l generalizing b with
  | nil => exact ⟨b, rfl, Or.inl rfl, le_refl _, by simp⟩
  | cons x xs ih =>
    rw [List.foldl_cons]
    by_cases hx : x.latestNonce < b.latestNonce
    · rw [show Database.pickEarliestStep (some b) x = some x from if_pos hx]
      obtain ⟨a, ha, hm, hle, hall⟩ := ih x
      refine ⟨a, ha, ?_, le_trans hle (le_of_lt hx), ?_⟩
      · rcases hm with rfl | hm
        · exact Or.inr (List.mem_cons_self _ _)
        · exact Or.inr (List.mem_cons_of_mem _ hm)
      · intro c hc
        rcases List.mem_cons.mp hc with rfl | hc'
        · exact hle
        · exact hall c hc'
    · rw [show Database.pickEarliestStep (some b) x = some b from if_neg hx]
      obtain ⟨a, ha, hm, hle, hall⟩ := ih b
      refine ⟨a, ha, ?_, hle, ?_⟩
      · rcases hm with rfl | hm
        · exact Or.inl rfl
        · exact Or.inr (List.mem_cons_of_mem _ hm)
      · intro c hc
        rcases List.mem_cons.mp hc with rfl | hc'
        · exact le_trans hle (Nat.le_of_not_lt hx)
        · exact hall c hc'

/-- `pickEarliest` returns a member whose nonce is below the whole list. -/
theorem pickEarliest_some (l : List DbAlias) (a : DbAlias)
    (h : Database.pickEarliest l = some a) :
    a ∈ l ∧ ∀ b ∈ l, a.latestNonce ≤ b.latestNonce := by
  cases l with
  | nil => cases h
  | cons x xs =>
    rw [Database.pickEarliest, List.foldl_cons,
      show Database.pickEarliestStep none x = some x from rfl] at h
    obtain ⟨a', ha', hm, hle, hall⟩ := foldl_pickEarliestStep xs x
    rw [ha'] at h
    obtain rfl : a' = a := by injection h
    constructor
    · rcases hm with rfl | hm
      · exact List.mem_cons_self _ _
      · exact List.mem_cons_of_mem _ hm
    · intro b hb
      rcases List.mem_cons.mp hb with rfl | hb'
      · exact hle
      · exact hall b hb'

/-- `pickEarliest` succeeds on any non-empty list. -/
theorem pickEarliest_isSome (l : List DbAlias) (h : l ≠ []) :
    (Database.pickEarliest l).isSome = true := by
  cases l with
  | nil => exact absurd rfl h
  | cons x xs =>
    rw [Database.pickEarliest, List.foldl_cons,
      show Database.pickEarliestStep none x = some x from rfl]
    obtain ⟨a, ha, -, -, -⟩ := foldl_pickEarliestStep xs x
    rw [ha]
    rfl

/-- Unpacking `pickEarliest` over a floor-filtered generation list. -/
theorem pickEarliest_filter_floor (l : List DbAlias) (p : DbAlias → Bool) (n : Nat) (a : DbAlias)
    (h : Database.pickEarliest ((l.filter p).filter fun x => n ≤ x.latestNonce) = some a) :
    a ∈ l ∧ p a = true ∧ n ≤ a.latestNonce ∧
      ∀ b ∈ l, p b = true → n ≤ b.latestNonce → a.latestNonce ≤ b.latestNonce := by
  obtain ⟨hm, hmin⟩ := pickEarliest_some _ _ h
  have h1 := List.mem_filter.mp hm
  have h2 := List.mem_filter.mp h1.1
  refine ⟨h2.1, h2.2, by simpa using h1.2, ?_⟩
  intro b hb hpb hbn
  exact hmin b (List.mem_filter.mpr ⟨List.mem_filter.mpr ⟨hb, hpb⟩, by simpa using hbn⟩)

/-- Unpacking `pickLatest` over an unfiltered generation list. -/
theorem pickLatest_filter_all (l : List DbAlias) (p : DbAlias → Bool) (a : DbAlias)
    (h : Database.pickLatest (l.filter p) = some a) :
    a ∈ l ∧ p a = true ∧ ∀ b ∈ l, p b = true → b.latestNonce ≤ a.latestNonce := by
  obtain ⟨hm, hmax⟩ := pickLatest_some _ _ h
  have h1 := List.mem_filter.mp hm
  exact ⟨h1.1, h1.2, fun b hb hpb => hmax b (List.mem_filter.mpr ⟨hb, hpb⟩)⟩

/-- C9 counterexample:  on the test suite's scenario (address 50,
generations at nonces 10, 8, 6), the query at nonce 7 returns the nonce-8
generation (hash 42) even though its `latestNonce` exceeds 7, and does NOT
return the generation with the greatest `latestNonce` at most 7 (the
nonce-6 one, hash 43) — refuting the "greatest latestNonce ≤ ceiling"
reading. -/
theorem aliasCeiling_counterexample :
    dbAliasEx.getAliasHashByAddress 50 (some 7) = some 42 ∧
    dbAliasEx.getAliasHashByAddress 50 (some 7) ≠ some 43 ∧
    (⟨42, 50, 8⟩ : DbAlias) ∈ dbAliasEx.aliases ∧
    (⟨43, 50, 6⟩ : DbAlias) ∈ dbAliasEx.aliases ∧
    ¬(8 ≤ 7) ∧ 6 ≤ 7 ∧
    dbAliasEx.getAddressByAliasHash 42 (some 7) = some 50 := by decide

/-- C9 (amended):  with a nonce given, `getAliasHashByAddress` and
`getAddressByAliasHash` return the matching generation with the SMALLEST
`latestNonce` at least that nonce (and succeed whenever one exists); with
the nonce omitted they return the generation with the globally greatest
`latestNonce`; `getLatestNonceByAddress` / `getLatestNonceByAliasHash`
return the maximum `latestNonce` over the matching generations. -/
theorem aliasQueries_amended_spec (db : Database) (address aliasHash n m h : Nat) :
    (db.getAliasHashByAddress address (some n) = some h →
      ∃ a, a ∈ db.aliases ∧ a.address = address ∧ n ≤ a.latestNonce ∧ a.aliasHash = h ∧
        ∀ b, b ∈ db.aliases → b.address = address → n ≤ b.latestNonce →
          a.latestNonce ≤ b.latestNonce) ∧
    (db.getAliasHashByAddress address none = some h →
      ∃ a, a ∈ db.aliases ∧ a.address = address ∧ a.aliasHash = h ∧
        ∀ b, b ∈ db.aliases → b.address = address → b.latestNonce ≤ a.latestNonce) ∧
    (db.getAddressByAliasHash aliasHash (some n) = some m →
      ∃ a, a ∈ db.aliases ∧ a.aliasHash = aliasHash ∧ n ≤ a.latestNonce ∧ a.address = m ∧
        ∀ b, b ∈ db.aliases → b.aliasHash = aliasHash → n ≤ b.latestNonce →
          a.latestNonce ≤ b.latestNonce) ∧
    (db.getAddressByAliasHash aliasHash none = some m →
      ∃ a, a ∈ db.aliases ∧ a.aliasHash = aliasHash ∧ a.address = m ∧
        ∀ b, b ∈ db.aliases → b.aliasHash = aliasHash → b.latestNonce ≤ a.latestNonce) ∧
    (db.getLatestNonceByAddress address = (m : WithBot Nat) →
      (∃ a, a ∈ db.aliases ∧ a.address = address ∧ a.latestNonce = m) ∧
        ∀ b, b ∈ db.aliases → b.address = address → b.latestNonce ≤ m) ∧
    (db.getLatestNonceByAliasHash aliasHash = (m : WithBot Nat) →
      (∃ a, a ∈ db.aliases ∧ a.aliasHash = aliasHash ∧ a.latestNonce = m) ∧
        ∀ b, b ∈ db.aliases → b.aliasHash = aliasHash → b.latestNonce ≤ m) ∧
    ((∃ a, a ∈ db.aliases ∧ a.address = address ∧ n ≤ a.latestNonce) →
      (db.getAliasHashByAddress address (some n)).isSome = true) ∧
    ((∃ a, a ∈ db.aliases ∧ a.aliasHash = aliasHash ∧ n ≤ a.latestNonce) →
      (db.getAddressByAliasHash aliasHash (some n)).isSome = true) := by
  refine ⟨?_, ?_, ?_, ?_, ?_, ?_, ?_, ?_⟩
  · intro h1
    obtain ⟨a, ha, hah⟩ := Option.map_eq_some'.mp h1
    obtain ⟨hm, hpa, hn, hmin⟩ := pickEarliest_filter_floor db.aliases _ n a ha
    exact ⟨a, hm, by simpa using hpa, hn, hah, fun b hb hba hbn =>
      hmin b hb (by simpa using hba) hbn⟩
  · intro h1
    obtain ⟨a, ha, hah⟩ := Option.map_eq_some'.mp h1
    obtain ⟨hm, hpa, hmax⟩ := pickLatest_filter_all db.aliases _ a ha
    exact ⟨a, hm, by simpa using hpa, hah, fun b hb hba =>
      hmax b hb (by simpa using hba)⟩
  · intro h1
    obtain ⟨a, ha, hah⟩ := Option.map_eq_some'.mp h1
    obtain ⟨hm, hpa, hn, hmin⟩ := pickEarliest_filter_floor db.aliases _ n a ha
    exact ⟨a, hm, by simpa using hpa, hn, hah, fun b hb hba hbn =>
      hmin b hb (by simpa using hba) hbn⟩
  · intro h1
    obtain ⟨a, ha, hah⟩ := Option.map_eq_some'.mp h1
    obtain ⟨hm, hpa, hmax⟩ := pickLatest_filter_all db.aliases _ a ha
    exact ⟨a, hm, by simpa using hpa, hah, fun b hb hba =>
      hmax b hb (by simpa using hba)⟩
  · intro h1
    rw [Database.getLatestNonceByAddress] at h1
    obtain ⟨hmem, hall⟩ := List.maximum_eq_coe_iff.mp h1
    obtain ⟨a, ha, han⟩ := List.mem_map.mp hmem
    have hfa := List.mem_filter.mp ha
    refine ⟨⟨a, hfa.1, by simpa using hfa.2, han⟩, ?_⟩
    intro b hb hba
    exact hall _ (List.mem_map.mpr ⟨b, List.mem_filter.mpr ⟨hb, by simpa using hba⟩, rfl⟩)
  · intro h1
    rw [Database.getLatestNonceByAliasHash] at h1
    obtain ⟨hmem, hall⟩ := List.maximum_eq_coe_iff.mp h1
    obtain ⟨a, ha, han⟩ := List.mem_map.mp hmem
    have hfa := List.mem_filter.mp ha
    refine ⟨⟨a, hfa.1, by simpa using hfa.2, han⟩, ?_⟩
    intro b hb hba
    exact hall _ (List.mem_map.mpr ⟨b, List.mem_filter.mpr ⟨hb, by simpa using hba⟩, rfl⟩)
  · rintro ⟨a, ha, haddr, hn⟩
    have hmem : a ∈ (db.aliases.filter fun x => x.address == address).filter
        fun x => n ≤ x.latestNonce :=
      List.mem_filter.mpr
        ⟨List.mem_filter.mpr ⟨ha, by simpa using haddr⟩, by simpa using hn⟩
    have hs := pickEarliest_isSome _ (List.ne_nil_of_mem hmem)
    obtain ⟨a', ha'⟩ := Option.isSome_iff_exists.mp hs
    simp only [Database.getAliasHashByAddress, Database.selectGeneration, ha',
      Option.map_some', Option.isSome_some]
  · rintro ⟨a, ha, hhash, hn⟩
    have hmem : a ∈ (db.aliases.filter fun x => x.aliasHash == aliasHash).filter
        fun x => n ≤ x.latestNonce :=
      List.mem_filter.mpr
        ⟨List.mem_filter.mpr ⟨ha, by simpa using hhash⟩, by simpa using hn⟩
    have hs := pickEarliest_isSome _ (List.ne_nil_of_mem hmem)
    obtain ⟨a', ha'⟩ := Option.isSome_iff_exists.mp hs
    simp only [Database.getAddressByAliasHash, Database.selectGeneration, ha',
      Option.map_some', Option.isSome_some]

/-- Witness for the amended C9:  on the test suite's scenario, the query at
nonce 7 is backed by the nonce-8 generation, the smallest one at or above
7. -/
theorem aliasQueries_amended_spec_witness :
    ∃ a, a ∈ dbAliasEx.aliases ∧ DbAlias.address a = 50 ∧ 7 ≤ DbAlias.latestNonce a ∧
      DbAlias.aliasHash a = 42 ∧
      ∀ b, b ∈ dbAliasEx.aliases → DbAlias.address b = 50 → 7 ≤ DbAlias.latestNonce b →
        DbAlias.latestNonce a ≤ DbAlias.latestNonce b :=
  (aliasQueries_amended_spec dbAliasEx 50 40 7 0 42).1 (by decide)

/-- The minimal-overshoot scan started at `some b` ends at `b` or at a
member of the scanned candidate list. -/
theorem foldl_pickNotesStep (l : List (List TrackedNote)) (b : List TrackedNote) :
    ∃ a, l.foldl pickNotesStep (some b) = some a ∧ (a = b ∨ a ∈ l) := by
  induction l generalizing b with
  | nil => exact ⟨b, rfl, Or.inl rfl⟩
  | cons x xs ih =>
    rw [List.foldl_cons]
    by_cases hx : noteSum x < noteSum b
    · rw [show pickNotesStep (some b) x = some x from if_pos hx]
      obtain ⟨a, ha, hm⟩ := ih x
      refine ⟨a, ha, ?_⟩
      rcases hm with rfl | hm
      · exact Or.inr (List.mem_cons_self _ _)
      · exact Or.inr (List.mem_cons_of_mem _ hm)
    · rw [show pickNotesStep (some b) x = some b from if_neg hx]
      obtain ⟨a, ha, hm⟩ := ih b
      refine ⟨a, ha, ?_⟩
      rcases hm with rfl | hm
      · exact Or.inl rfl
      · exact Or.inr (List.mem_cons_of_mem _ hm)

/-- A successful selection is a sub-list of the spendable notes, has at most
2 notes, and reaches the target value. -/
theorem pickNotes_some_props (notes : List TrackedNote) (v : Int) (ns : List TrackedNote)
    (h : pickNotes notes v = some ns) :
    ns.Sublist notes ∧ ns.length ≤ 2 ∧ v ≤ noteSum ns := by
  rw [pickNotes] at h
  cases hc : notes.sublists.filter fun s => s.length ≤ 2 && v ≤ noteSum s with
  | nil => rw [hc] at h; cases h
  | cons x xs =>
    rw [hc, List.foldl_cons, show pickNotesStep none x = some x from rfl] at h
    obtain ⟨a, ha, hm⟩ := foldl_pickNotesStep xs x
    rw [ha] at h
    have hans : a = ns := Option.some.inj h
    rw [hans] at hm
    have hmem : ns ∈ notes.sublists.filter fun s => s.length ≤ 2 && v ≤ noteSum s := by
      rw [hc]
      rcases hm with rfl | hm
      · exact List.mem_cons_self _ _
      · exact List.mem_cons_of_mem _ hm
    have h2 := List.mem_filter.mp hmem
    have hp := h2.2
    simp only [Bool.and_eq_true, decide_eq_true_eq] at hp
    exact ⟨List.mem_sublists.mp h2.1, hp.1, hp.2⟩

/-- The selection fails exactly when no sub-list of at most 2 notes reaches
the target value. -/
theorem pickNotes_none_iff (notes : List TrackedNote) (v : Int) :
    pickNotes notes v = none ↔
      ¬∃ s, s.Sublist notes ∧ s.length ≤ 2 ∧ v ≤ noteSum s := by
  rw [pickNotes]
  cases hc : notes.sublists.filter fun s => s.length ≤ 2 && v ≤ noteSum s with
  | nil =>
    simp only [List.foldl_nil]
    constructor
    · intro _ hex
      obtain ⟨s, hsub, hlen, hsum⟩ := hex
      have hmem : s ∈ notes.sublists.filter fun s => s.length ≤ 2 && v ≤ noteSum s :=
        List.mem_filter.mpr ⟨List.mem_sublists.mpr hsub, by simp [hlen, hsum]⟩
      rw [hc] at hmem
      cases hmem
    · intro _
      trivial
  | cons x xs =>
    rw [List.foldl_cons, show pickNotesStep none x = some x from rfl]
    obtain ⟨a, ha, -⟩ := foldl_pickNotesStep xs x
    rw [ha]
    constructor
    · intro hcontra
      exact Option.noConfusion hcontra
    · intro hnex
      exfalso
      apply hnex
      have hx : x ∈ notes.sublists.filter fun s => s.length ≤ 2 && v ≤ noteSum s := by
        rw [hc]
        exact List.mem_cons_self _ _
      have h2 := List.mem_filter.mp hx
      have hp := h2.2
      simp only [Bool.and_eq_true, decide_eq_true_eq] at hp
      exact ⟨x, List.mem_sublists.mp h2.1, hp.1, hp.2⟩

/-- C1:  whenever `createProof` succeeds, the transaction handed to the
prover has exactly 2 input notes — the selected real notes (re-owned by the
sender) padded with zero-value dummy notes carrying the fresh viewing
secrets — and exactly 2 output notes: the destination note of value
`newNoteValue` owned by the receiver key (or the fresh random key when none
is given) and the change note of value
`max 0 (totalInputValue - newNoteValue - publicOutput)` owned by the
sender. -/
theorem createProof_shape_spec (env : JsEnv) (spendableNotes : List TrackedNote)
    (publicInput publicOutput newNoteValue : Int) (sender : UserData)
    (receiverPubKey outputOwnerAddress : Option Nat) (signer : Option Signer)
    (dummySecrets : Nat → Nat) (outSecret1 outSecret2 randomOwner : Nat)
    (res : CreateProofResult)
    (hok : createProof env spendableNotes publicInput publicOutput newNoteValue sender
        receiverPubKey outputOwnerAddress signer dummySecrets outSecret1 outSecret2 randomOwner
      = Except.ok res) :
    ∃ notes,
      pickNotes spendableNotes (max 0 (newNoteValue + publicOutput - publicInput))
          = some notes ∧
      res.tx.inputNotes
        = (notes.map fun n => Note.mk sender.publicKey n.viewingKey n.value)
          ++ ((List.range 2).drop notes.length).map
              (fun i => Note.mk sender.publicKey (dummySecrets i) 0) ∧
      res.tx.inputNotes.length = 2 ∧
      res.tx.outputNotes
        = [Note.mk (receiverPubKey.getD randomOwner) outSecret1 newNoteValue,
           Note.mk sender.publicKey outSecret2
             (max 0 (noteSum notes - newNoteValue - publicOutput))] := by
  cases hpick : pickNotes spendableNotes (max 0 (newNoteValue + publicOutput - publicInput)) with
  | none =>
    simp only [createProof, hpick] at hok
    exact Except.noConfusion hok
  | some notes =>
    have hlen := (pickNotes_some_props _ _ _ hpick).2.1
    simp only [createProof, hpick] at hok
    refine ⟨notes, rfl, ?_⟩
    by_cases hpi : publicInput ≠ 0
    · rw [if_pos hpi] at hok
      cases signer with
      | none =>
        simp only [ethSign] at hok
        exact Except.noConfusion hok
      | some s =>
        simp only [ethSign] at hok
        injection hok with hok
        subst hok
        refine ⟨rfl, ?_, rfl⟩
        simp only [List.length_append, List.length_map, List.length_drop, List.length_range]
        omega
    · rw [if_neg hpi] at hok
      injection hok with hok
      subst hok
      refine ⟨rfl, ?_, rfl⟩
      simp only [List.length_append, List.length_map, List.length_drop, List.length_range]
      omega

/-- Witness for C1 on the single-note fixture:  one real input of value 100,
one dummy pad, outputs of 30 (to the random key 3) and 70 (change to the
sender 8). -/
theorem createProof_shape_spec_witness :
    ∃ notes,
      pickNotes [⟨0, 100, 9⟩] (max 0 (30 + 0 - 0)) = some notes ∧
      resEx.tx.inputNotes
        = (notes.map fun n => Note.mk 8 n.viewingKey n.value)
          ++ ((List.range 2).drop notes.length).map (fun i => Note.mk 8 ((fun _ => 0) i) 0) ∧
      resEx.tx.inputNotes.length = 2 ∧
      resEx.tx.outputNotes
        = [Note.mk ((none : Option Nat).getD 3) 1 30,
           Note.mk 8 2 (max 0 (noteSum notes - 30 - 0))] :=
  createProof_shape_spec envEx [⟨0, 100, 9⟩] 0 0 30 ⟨8, 9⟩ none none none
    (fun _ => 0) 1 2 3 resEx (by rfl)

/-- C2:  `createProof` computes the required input value as
`max 0 (newNoteValue + publicOutput - publicInput)` and throws the
insufficient-funds error exactly when no sub-list of at most 2 spendable
notes reaches that value; a successful selection is at most 2 notes summing
to at least the required value (no partial spend). -/
theorem createProof_insufficient_spec (env : JsEnv) (spendableNotes : List TrackedNote)
    (publicInput publicOutput newNoteValue : Int) (sender : UserData)
    (receiverPubKey outputOwnerAddress : Option Nat) (signer : Option Signer)
    (dummySecrets : Nat → Nat) (outSecret1 outSecret2 randomOwner : Nat) :
    (createProof env spendableNotes publicInput publicOutput newNoteValue sender
        receiverPubKey outputOwnerAddress signer dummySecrets outSecret1 outSecret2 randomOwner
      = Except.error JsError.insufficientFunds ↔
      ¬∃ s, s.Sublist spendableNotes ∧ s.length ≤ 2 ∧
        max 0 (newNoteValue + publicOutput - publicInput) ≤ noteSum s) ∧
    (∀ ns, pickNotes spendableNotes (max 0 (newNoteValue + publicOutput - publicInput))
        = some ns →
      ns.Sublist spendableNotes ∧ ns.length ≤ 2 ∧
        max 0 (newNoteValue + publicOutput - publicInput) ≤ noteSum ns) := by
  constructor
  · rw [← pickNotes_none_iff]
    constructor
    · intro h
      cases hpick : pickNotes spendableNotes
          (max 0 (newNoteValue + publicOutput - publicInput)) with
      | none => rfl
      | some notes =>
        exfalso
        simp only [createProof, hpick] at h
        by_cases hpi : publicInput ≠ 0
        · rw [if_pos hpi] at h
          cases signer with
          | none =>
            simp only [ethSign] at h
            injection h with h2
            exact JsError.noConfusion h2
          | some s =>
            simp only [ethSign] at h
            exact Except.noConfusion h
        · rw [if_neg hpi] at h
          exact Except.noConfusion h
    · intro h
      simp only [createProof, h]
  · intro ns hns
    exact pickNotes_some_props _ _ _ hns

/-- Witness for C2:  the selector picks the single note of value 100 for a
required value of 30. -/
theorem createProof_insufficient_spec_witness :
    List.Sublist [⟨0, 100, 9⟩] ([⟨0, 100, 9⟩] : List TrackedNote) ∧
      List.length ([⟨0, 100, 9⟩] : List TrackedNote) ≤ 2 ∧
      max 0 (30 + 0 - 0) ≤ noteSum [⟨0, 100, 9⟩] :=
  (createProof_insufficient_spec envEx [⟨0, 100, 9⟩] 0 0 30 ⟨8, 9⟩ none none none
    (fun _ => 0) 1 2 3).2 [⟨0, 100, 9⟩] (by decide)

/-- C5:  `createProof` returns a deposit signature exactly when
`publicInput > 0`:  with no signer it throws the signer-required error, with
a signer it returns the normalized signature over the keccak digest of the
deposit signing data; the recovery-byte fix-up turns a trailing 0 or 1 into
27 or 28 and leaves bytes at least 27 unchanged; with `publicInput = 0` the
deposit signature is absent. -/
theorem createProof_deposit_spec (env : JsEnv) (spendableNotes : List TrackedNote)
    (publicInput publicOutput newNoteValue : Int) (sender : UserData)
    (receiverPubKey outputOwnerAddress : Option Nat) (signer : Option Signer)
    (dummySecrets : Nat → Nat) (outSecret1 outSecret2 randomOwner : Nat)
    (notes : List TrackedNote)
    (hpick : pickNotes spendableNotes (max 0 (newNoteValue + publicOutput - publicInput))
      = some notes) :
    (publicInput = 0 →
      ∃ res, createProof env spendableNotes publicInput publicOutput newNoteValue sender
          receiverPubKey outputOwnerAddress signer dummySecrets outSecret1 outSecret2 randomOwner
        = Except.ok res ∧ res.depositSignature = none) ∧
    (0 < publicInput → signer = none →
      createProof env spendableNotes publicInput publicOutput newNoteValue sender
          receiverPubKey outputOwnerAddress signer dummySecrets outSecret1 outSecret2 randomOwner
        = Except.error JsError.signerRequired) ∧
    (∀ s, 0 < publicInput → signer = some s →
      ∃ res, createProof env spendableNotes publicInput publicOutput newNoteValue sender
          receiverPubKey outputOwnerAddress signer dummySecrets outSecret1 outSecret2 randomOwner
        = Except.ok res ∧
        res.depositSignature = some (normalizeSig (s.signMessage (env.keccak
          (env.getDepositSigningData res.proofData res.viewingKeys))))) ∧
    (∀ sig v, sig.getLast? = some v → v ≤ 1 →
      normalizeSig sig = sig.dropLast ++ [v + 27]) ∧
    (∀ sig v, sig.getLast? = some v → 27 ≤ v → normalizeSig sig = sig) := by
  refine ⟨?_, ?_, ?_, ?_, ?_⟩
  · intro h0
    simp only [createProof, hpick]
    rw [if_neg fun hc => hc h0]
    exact ⟨_, rfl, rfl⟩
  · intro hlt hs
    subst hs
    simp only [createProof, hpick]
    rw [if_pos (ne_of_gt hlt)]
    simp only [ethSign]
  · intro s hlt hs
    subst hs
    simp only [createProof, hpick]
    rw [if_pos (ne_of_gt hlt)]
    simp only [ethSign]
    exact ⟨_, rfl, rfl⟩
  · intro sig v hv hle
    rw [normalizeSig, hv]
    exact if_pos hle
  · intro sig v hv hge
    rw [normalizeSig, hv]
    exact if_neg (by omega)

/-- Witness for C5:  a deposit of 5 with the fixture signer whose signature
ends in the non-standard byte 0. -/
theorem createProof_deposit_spec_witness :
    ∃ res, createProof envEx [⟨0, 100, 9⟩] 5 0 30 ⟨8, 9⟩ none none (some signerEx)
        (fun _ => 0) 1 2 3 = Except.ok res ∧
      res.depositSignature = some (normalizeSig (signerEx.signMessage (envEx.keccak
        (envEx.getDepositSigningData res.proofData res.viewingKeys)))) :=
  (createProof_deposit_spec envEx [⟨0, 100, 9⟩] 5 0 30 ⟨8, 9⟩ none none (some signerEx)
      (fun _ => 0) 1 2 3 [⟨0, 100, 9⟩] (by decide)).2.2.1 signerEx
    (by decide) rfl

/-- C3:  on `chainEx` both rollup transactions (hashes 10 and 11) survive
the confirmation filter, yet both decoded blocks carry `gasUsed = 100` —
the gas used of the FIRST transaction's receipt — although transaction 11's
own receipt reports 200:  `getRollupBlocksFrom` passes `receipts[0]` to
`decodeBlock` for every transaction. -/
theorem rollupBlocks_gasUsed_bug :
    ((getRollupBlocksFrom chainEx 5 1).map fun b => b.txHash) = [10, 11] ∧
    ((getRollupBlocksFrom chainEx 5 1).map fun b => b.gasUsed) = [100, 100] ∧
    (chainEx.getTransactionReceipt 11).gasUsed = 200 := by decide

/-- C4:  `getRollupBlocksFrom` returns the empty sequence when no
rollup-processed event for the queried id exists, every returned block
comes from a transaction with at least `minConfirmations` confirmations,
and when every underlying transaction is under-confirmed — the spec's sole
under-confirmed rollup — the result is empty. -/
theorem getRollupBlocksFrom_spec (chain : Chain) (rollupId minConfirmations : Nat) :
    ((chain.rollupEvents.filter fun e => e.rollupId == rollupId) = [] →
      getRollupBlocksFrom chain rollupId minConfirmations = []) ∧
    (∀ b ∈ getRollupBlocksFrom chain rollupId minConfirmations,
      ∃ e, e ∈ chain.rollupEvents ∧
        minConfirmations ≤ (chain.getTransaction e).confirmations ∧
        b.txHash = (chain.getTransaction e).hash) ∧
    ((∀ e ∈ chain.rollupEvents, (chain.getTransaction e).confirmations < minConfirmations) →
      getRollupBlocksFrom chain rollupId minConfirmations = []) := by
  refine ⟨?_, ?_, ?_⟩
  · intro h
    simp [getRollupBlocksFrom, h]
  · intro b hb
    simp only [getRollupBlocksFrom] at hb
    cases hh : (chain.rollupEvents.filter fun e => e.rollupId == rollupId).head? with
    | none =>
      rw [hh] at hb
      cases hb
    | some ev =>
      rw [hh] at hb
      simp only at hb
      by_cases hlen :
          ((chain.rollupEvents.filter fun e => ev.blockNumber ≤ e.blockNumber).length == 0) = true
      · rw [if_pos hlen] at hb
        cases hb
      · rw [if_neg hlen] at hb
        obtain ⟨tx, htx, hdec⟩ := List.mem_map.mp hb
        have h2 := List.mem_filter.mp htx
        obtain ⟨e, he, rfl⟩ := List.mem_map.mp h2.1
        refine ⟨e, (List.mem_filter.mp he).1, by simpa using h2.2, ?_⟩
        rw [← hdec]
        rfl
  · intro hall
    cases hh : (chain.rollupEvents.filter fun e => e.rollupId == rollupId).head? with
    | none => simp [getRollupBlocksFrom, hh]
    | some ev =>
      have htxs : ((chain.rollupEvents.filter fun e => ev.blockNumber ≤ e.blockNumber).map
          chain.getTransaction).filter (fun tx => minConfirmations ≤ tx.confirmations) = [] := by
        rw [List.filter_eq_nil_iff]
        intro tx htx
        obtain ⟨e, he, rfl⟩ := List.mem_map.mp htx
        have hconf := hall e (List.mem_filter.mp he).1
        simp only [decide_eq_true_eq]
        exact Nat.not_le.mpr hconf
      simp [getRollupBlocksFrom, hh, htxs]

/-- Witness for C4:  the spec's scenario — rollup 5 at block 1000 whose
transaction has 1 confirmation while 2 are required — yields the empty
sequence. -/
theorem getRollupBlocksFrom_spec_witness : getRollupBlocksFrom chainExLow 5 2 = [] :=
  (getRollupBlocksFrom_spec chainExLow 5 2).2.2 (by decide)

end AztecConnect
